import Mathlib

/-!
Verification development for the autocomplete subsystem of the `azlogs`
terminal UI (Go package `ui`): the context parser and local suggestion
engine (`autocomplete.go`), the suggestion popup (`suggestions.go`), and
the orchestration pieces of the application model (`app.go`).

Go strings are modelled as lists of bytes (`Nat` values below 256), because
Go string indexing, slicing, and `len` are byte-based and the code under
verification slices strings at byte offsets computed from lowercased
copies.  UTF-8 encoding/decoding and the parts of the Unicode tables that
the concrete inputs of this development exercise are modelled explicitly.

Go's `sort.Slice` gives no stability guarantee, so the sorting step of
`GetSuggestions` is modelled relationally: any permutation of the computed
candidates that is ordered by the supplied comparison is an admissible
result.
-/

namespace Azlogs

/-- GoStr models a Go string as its list of UTF-8 bytes. -/
abbrev GoStr := List Nat

/-- utf8EncodeChar encodes a Unicode code point as UTF-8 bytes, as Go's
`utf8.EncodeRune` does for valid code points (code points above U+10FFFF and
surrogates do not occur in this development). -/
def utf8EncodeChar (c : Nat) : List Nat :=
  if c < 0x80 then [c]
  else if c < 0x800 then [0xC0 + c / 0x40, 0x80 + c % 0x40]
  else if c < 0x10000 then [0xE0 + c / 0x1000, 0x80 + (c / 0x40) % 0x40, 0x80 + c % 0x40]
  else [0xF0 + c / 0x40000, 0x80 + (c / 0x1000) % 0x40, 0x80 + (c / 0x40) % 0x40, 0x80 + c % 0x40]

/-- str converts a Lean string literal to the byte list of its UTF-8 encoding,
for writing concrete Go strings in statements. -/
def str (s : String) : GoStr :=
  s.data.foldr (fun c acc => utf8EncodeChar c.toNat ++ acc) []

/-- isCont recognises a UTF-8 continuation byte. -/
def isCont (b : Nat) : Bool := 0x80 ≤ b && b < 0xC0

/-- utf8Dec1 decodes the first rune of a byte list, returning the code point
and the number of bytes consumed, following Go's `utf8.DecodeRuneInString`:
any invalid encoding yields `(RuneError, 1)` where RuneError is U+FFFD. -/
def utf8Dec1 : List Nat → Nat × Nat
  | [] => (0xFFFD, 0)
  | b0 :: rest =>
    if b0 < 0x80 then (b0, 1)
    else if 0xC2 ≤ b0 && b0 ≤ 0xDF then
      match rest with
      | b1 :: _ =>
        if isCont b1 then ((b0 - 0xC0) * 0x40 + (b1 - 0x80), 2) else (0xFFFD, 1)
      | [] => (0xFFFD, 1)
    else if 0xE0 ≤ b0 && b0 ≤ 0xEF then
      match rest with
      | b1 :: b2 :: _ =>
        let lowOK :=
          if b0 = 0xE0 then 0xA0 ≤ b1 && b1 ≤ 0xBF
          else if b0 = 0xED then 0x80 ≤ b1 && b1 ≤ 0x9F
          else isCont b1
        if lowOK && isCont b2 then
          ((b0 - 0xE0) * 0x1000 + (b1 - 0x80) * 0x40 + (b2 - 0x80), 3)
        else (0xFFFD, 1)
      | _ => (0xFFFD, 1)
    else if 0xF0 ≤ b0 && b0 ≤ 0xF4 then
      match rest with
      | b1 :: b2 :: b3 :: _ =>
        let lowOK :=
          if b0 = 0xF0 then 0x90 ≤ b1 && b1 ≤ 0xBF
          else if b0 = 0xF4 then 0x80 ≤ b1 && b1 ≤ 0x8F
          else isCont b1
        if lowOK && isCont b2 && isCont b3 then
          ((b0 - 0xF0) * 0x40000 + (b1 - 0x80) * 0x1000 + (b2 - 0x80) * 0x40 + (b3 - 0x80), 4)
        else (0xFFFD, 1)
      | _ => (0xFFFD, 1)
    else (0xFFFD, 1)

/-- utf8ToksAux splits a byte list into decoded runes paired with the byte
chunk each rune occupies; the fuel argument bounds the recursion and is
sufficient whenever it is at least the length of the list. -/
def utf8ToksAux : Nat → List Nat → List (Nat × List Nat)
  | 0, _ => []
  | _, [] => []
  | fuel + 1, b :: rest =>
    let d := utf8Dec1 (b :: rest)
    let n := max d.2 1
    (d.1, (b :: rest).take n) :: utf8ToksAux fuel ((b :: rest).drop n)

/-- utf8Toks decodes a whole byte list into (rune, chunk) pairs. -/
def utf8Toks (s : List Nat) : List (Nat × List Nat) :=
  utf8ToksAux s.length s

/-- lowerRune models Go's `unicode.ToLower` (the simple, one-to-one case
mapping), restricted to the script ranges this development exercises: ASCII,
the Latin-1 supplement, and the Latin Extended-B pair U+023A/U+023E whose
lowercase forms U+2C65/U+2C66 have a longer UTF-8 encoding.  Runes outside
these ranges are left unchanged. -/
def lowerRune (r : Nat) : Nat :=
  if 0x41 ≤ r && r ≤ 0x5A then r + 0x20
  else if (0xC0 ≤ r && r ≤ 0xDE) && !(r = 0xD7) then r + 0x20
  else if r = 0x23A then 0x2C65
  else if r = 0x23E then 0x2C66
  else r

/-- goToLower models Go's `strings.ToLower`: decode each rune, apply the
simple lowercase mapping, and re-encode.  (For valid UTF-8 this coincides
with `strings.Map(unicode.ToLower, s)`; invalid sequences do not occur in
this development's inputs.) -/
def goToLower (s : GoStr) : GoStr :=
  (utf8Toks s).foldr (fun rc acc => utf8EncodeChar (lowerRune rc.1) ++ acc) []

/-- isGoSpaceRune models Go's `unicode.IsSpace` (White_Space property). -/
def isGoSpaceRune (r : Nat) : Bool :=
  r = 9 || r = 10 || r = 11 || r = 12 || r = 13 || r = 32 || r = 0x85 || r = 0xA0 ||
  r = 0x1680 || (0x2000 ≤ r && r ≤ 0x200A) || r = 0x2028 || r = 0x2029 ||
  r = 0x202F || r = 0x205F || r = 0x3000

/-- goTrimSpace models Go's `strings.TrimSpace`: remove leading and trailing
runes satisfying `unicode.IsSpace`. -/
def goTrimSpace (s : GoStr) : GoStr :=
  let toks := utf8Toks s
  let core := ((toks.dropWhile (fun rc => isGoSpaceRune rc.1)).reverse.dropWhile
      (fun rc => isGoSpaceRune rc.1)).reverse
  core.foldr (fun rc acc => rc.2 ++ acc) []

/-- goTrimRightWs models `strings.TrimRight(s, " \t\n")`: remove trailing
bytes in the cutset (all cutset members are ASCII, so this is byte-wise). -/
def goTrimRightWs (s : GoStr) : GoStr :=
  (s.reverse.dropWhile (fun b => b = 32 || b = 9 || b = 10)).reverse

/-- goStartsWith models `strings.HasPrefix`. -/
def goStartsWith (s p : GoStr) : Bool := p.isPrefixOf s

/-- goEndsWith models `strings.HasSuffix`. -/
def goEndsWith (s suf : GoStr) : Bool := suf.isSuffixOf s

/-- goContains models `strings.Contains` (byte-substring occurrence). -/
def goContains (s sub : GoStr) : Bool :=
  (List.range (s.length + 1)).any (fun i => sub.isPrefixOf (s.drop i))

/-- goLastIdx models `strings.LastIndex`: the byte index of the last
occurrence of `sub` in `s`, or `none` where Go returns -1. -/
def goLastIdx (s sub : GoStr) : Option Nat :=
  ((List.range (s.length + 1)).filter (fun i => sub.isPrefixOf (s.drop i))).getLast?

/-- goDropE models the Go string slice `s[i:]`, which panics (modelled as
`Except.error`) when `i` exceeds `len(s)`. -/
def goDropE (s : GoStr) (i : Nat) : Except Unit GoStr :=
  if i ≤ s.length then .ok (s.drop i) else .error ()

/-- goIsLetterByte models `unicode.IsLetter(rune(b))` for a single byte value
`b < 256` (the code converts individual bytes to runes): ASCII letters plus
the Latin-1 letters ª µ º À–Ö Ø–ö ø–ÿ.  This table is exact for all byte
values. -/
def goIsLetterByte (b : Nat) : Bool :=
  (0x41 ≤ b && b ≤ 0x5A) || (0x61 ≤ b && b ≤ 0x7A) || b = 0xAA || b = 0xB5 || b = 0xBA ||
  (0xC0 ≤ b && b ≤ 0xD6) || (0xD8 ≤ b && b ≤ 0xF6) || (0xF8 ≤ b && b ≤ 0xFF)

/-- goIsDigitByte models `unicode.IsDigit(rune(b))` for a byte value: only
the ASCII digits are in category Nd below U+0100. -/
def goIsDigitByte (b : Nat) : Bool := 0x30 ≤ b && b ≤ 0x39

/-- isWordByte is the identifier-character test of `findCurrentWord`:
`unicode.IsLetter(r) || unicode.IsDigit(r) || r == '_' || r == '-'`. -/
def isWordByte (b : Nat) : Bool :=
  goIsLetterByte b || goIsDigitByte b || b = 0x5F || b = 0x2D

/-! ## Data model (`azure.Column`, `ui.Suggestion`, `ui.ParsedContext`) -/

/-- Column mirrors `azure.Column`: a result-table column name and type. -/
structure Column where
  Name : GoStr
  Ty : GoStr  -- Go field `Type` (a Lean keyword)
  deriving DecidableEq, Repr

/-- CtxType mirrors the Go `ContextType` enumeration. -/
inductive CtxType where
  | unknown
  | tableName
  | operator
  | columnName
  | function
  | value
  deriving DecidableEq, Repr

/-- ParsedContext mirrors `ui.ParsedContext`. -/
structure ParsedContext where
  Ty : CtxType  -- Go field `Type` (a Lean keyword)
  CurrentTable : GoStr
  CurrentWord : GoStr
  WordStartPos : Nat
  ReferencedTables : List GoStr
  AfterKeyword : GoStr
  deriving DecidableEq, Repr

/-- Suggestion mirrors `ui.Suggestion`. -/
structure Suggestion where
  Text : GoStr
  Ty : GoStr  -- Go field `Type` (a Lean keyword)
  Description : GoStr
  Score : Int
  deriving DecidableEq, Repr

/-- Engine mirrors the `AutocompleteEngine` receiver state: the known table
list and the schema cache `map[string][]azure.Column` (modelled as a lookup
function, `none` on a missing key). -/
structure Engine where
  tables : List GoStr
  schemas : GoStr → Option (List Column)

/-- kqlOperators mirrors the `kqlOperators` vocabulary. -/
def kqlOperators : List GoStr :=
  [str ("where"), str ("project"), str ("extend"), str ("summarize"), str ("join"),
   str ("union"), str ("take"), str ("limit"), str ("top"), str ("sort"),
   str ("order"), str ("distinct"), str ("count"), str ("render"), str ("parse"),
   str ("evaluate"), str ("invoke"), str ("mv-expand"), str ("make-series"),
   str ("serialize"), str ("range")]

/-- kqlFunctions mirrors the `kqlFunctions` vocabulary. -/
def kqlFunctions : List GoStr :=
  [str ("count()"), str ("sum("), str ("avg("), str ("min("), str ("max("),
   str ("dcount("), str ("percentile("), str ("stdev("), str ("variance("),
   str ("countif("), str ("sumif("), str ("avgif("), str ("minif("), str ("maxif("),
   str ("make_list("), str ("make_set("), str ("arg_max("), str ("arg_min(")]

/-- kqlTimeFunctions mirrors the `kqlTimeFunctions` vocabulary. -/
def kqlTimeFunctions : List GoStr :=
  [str ("ago("), str ("now()"), str ("datetime("), str ("timespan("),
   str ("startofday("), str ("startofweek("), str ("startofmonth("),
   str ("endofday("), str ("endofweek("), str ("endofmonth("),
   str ("bin("), str ("format_datetime(")]

/-! ## Context parsing (`autocomplete.go`) -/

/-- findCurrentWord mirrors `AutocompleteEngine.findCurrentWord`: the maximal
trailing run of identifier bytes of `text` and its start offset.  The Go loop
walks `start` backwards from `len(text)` while `text[start-1]` is a word
byte, which yields exactly the reversed `takeWhile` below. -/
def findCurrentWord (text : GoStr) : GoStr × Nat :=
  if text.length = 0 then ([], 0)
  else
    let w := (text.reverse.takeWhile isWordByte).reverse
    (w, text.length - w.length)

/-- tablePatterns mirrors the `patterns` slice built in
`findReferencedTables` for one lowercased table name. -/
def tablePatterns (tableLower : GoStr) : List GoStr :=
  [tableLower ++ str (" "), tableLower ++ str ("|"), tableLower ++ [10],
   str ("| ") ++ tableLower, str ("|") ++ tableLower,
   str ("union ") ++ tableLower, str ("join ") ++ tableLower,
   str ("join (") ++ tableLower]

/-- tableMatches is the per-table success condition of the pattern loop in
`findReferencedTables`: some pattern occurs in the lowercased query, or the
lowercased query starts with the lowercased table name (the `HasPrefix`
disjunct is evaluated inside the loop, so it fires on the first pattern
iteration). -/
def tableMatches (queryLower tableLower : GoStr) : Bool :=
  (tablePatterns tableLower).any
    (fun p => goContains queryLower p || goStartsWith queryLower tableLower)

/-- refStep is the body of the `findReferencedTables` loop for one table.
The Go `seen` map holds exactly the tables already appended, so it is
modelled as membership in the accumulator. -/
def refStep (queryLower : GoStr) (acc : List GoStr) (table : GoStr) : List GoStr :=
  if tableMatches queryLower (goToLower table) && !(acc.contains table) then
    acc ++ [table]
  else acc

/-- findReferencedTables mirrors `AutocompleteEngine.findReferencedTables`,
folding `refStep` over the known tables in their list order. -/
def findReferencedTables (tbls : List GoStr) (query : GoStr) : List GoStr :=
  tbls.foldl (refStep (goToLower query)) []

/-- columnKeywords mirrors the `columnKeywords` slice of
`determineContextType`. -/
def columnKeywords : List GoStr :=
  [str ("where "), str ("project "), str ("extend "), str ("by "), str ("on ")]

/-- dctFallback is the shared tail of `determineContextType`: a query with
neither pipe nor space suggests a table name, anything else is unknown. -/
def dctFallback (trimmed : GoStr) : Except Unit (CtxType × GoStr) :=
  if !(goContains trimmed (str ("|"))) && !(goContains trimmed (str (" "))) then
    .ok (.tableName, [])
  else .ok (.unknown, [])

/-- determineContextType mirrors `AutocompleteEngine.determineContextType`.
The one slice whose bound is not structurally within range is
`afterPipe[idx+len(kw):]`, where `idx` is found in the lowercased segment:
it is modelled with `goDropE`, whose error case is the Go panic.  The Go
guard `len(strings.TrimSpace(afterKw)) >= 0` is always true and is elided;
`idx != -1` always holds because the keyword was found by `Contains`. -/
def determineContextType (beforeCursor : GoStr) : Except Unit (CtxType × GoStr) :=
  let trimmed := goTrimSpace beforeCursor
  if trimmed.length = 0 then .ok (.tableName, [])
  else if goEndsWith trimmed (str ("|")) then .ok (.operator, [])
  else
    match goLastIdx trimmed (str ("|")) with
    | some lastPipe =>
      let afterPipe := goTrimSpace (trimmed.drop (lastPipe + 1))
      let afterPipeLower := goToLower afterPipe
      if afterPipe.length = 0 || !(goContains afterPipe (str (" "))) then
        .ok (.operator, [])
      else
        match columnKeywords.find? (fun kw => goContains afterPipeLower kw) with
        | some kw =>
          let idx := (goLastIdx afterPipeLower kw).getD 0
          match goDropE afterPipe (idx + kw.length) with
          | .error e => .error e
          | .ok _afterKw => .ok (.columnName, goTrimSpace kw)
        | none =>
          if goContains afterPipeLower (str ("summarize ")) then
            .ok (.function, str ("summarize"))
          else if goEndsWith afterPipeLower (str ("join ")) ||
              goEndsWith afterPipeLower (str ("union ")) then
            .ok (.tableName, [])
          else dctFallback trimmed
    | none => dctFallback trimmed

/-- parseContext mirrors `AutocompleteEngine.ParseContext`: clamp the cursor,
trim the prefix, extract the current word, scan for referenced tables, and
classify the context.  The error case is a Go panic inside
`determineContextType`. -/
def parseContext (e : Engine) (query : GoStr) (cursorPos : Nat) :
    Except Unit ParsedContext :=
  let c := if cursorPos > query.length then query.length else cursorPos
  let beforeCursor := goTrimRightWs (query.take c)
  let cw := findCurrentWord beforeCursor
  let refs := findReferencedTables e.tables query
  let cur := (refs.head?).getD []
  (determineContextType beforeCursor).map
    (fun tk => ⟨tk.1, cur, cw.1, cw.2, refs, tk.2⟩)

/-! ## Suggestion generation (`autocomplete.go`) -/

/-- getTableSuggestions mirrors `AutocompleteEngine.getTableSuggestions`
(the appends of the Go loop, in iteration order). -/
def getTableSuggestions (e : Engine) (word : GoStr) : List Suggestion :=
  let prefixLower := goToLower word
  e.tables.filterMap (fun table =>
    let tableLower := goToLower table
    if goStartsWith tableLower prefixLower then
      let score : Int := if tableLower = prefixLower then 200 else 100
      some { Text := table, Ty := str ("table"), Description := str ("Table"),
             Score := score }
    else none)

/-- getOperatorSuggestions mirrors `AutocompleteEngine.getOperatorSuggestions`:
base 100, 200 on exact match, +50 for where/project/take/summarize. -/
def getOperatorSuggestions (word : GoStr) : List Suggestion :=
  let prefixLower := goToLower word
  kqlOperators.filterMap (fun op =>
    if goStartsWith op prefixLower then
      let score : Int := if op = prefixLower then 200 else 100
      let score :=
        if op == str ("where") || op == str ("project") || op == str ("take") ||
            op == str ("summarize") then score + 50
        else score
      some { Text := op, Ty := str ("operator"), Description := str ("Operator"),
             Score := score }
    else none)

/-- getColumnSuggestions mirrors `AutocompleteEngine.getColumnSuggestions`:
empty on a schema-cache miss; base 100, 200 on exact match, +50 for
TimeGenerated/ResourceId/OperationName. -/
def getColumnSuggestions (e : Engine) (tableName word : GoStr) : List Suggestion :=
  let prefixLower := goToLower word
  match e.schemas tableName with
  | none => []
  | some columns =>
    columns.filterMap (fun col =>
      let colLower := goToLower col.Name
      if goStartsWith colLower prefixLower then
        let score : Int := if colLower = prefixLower then 200 else 100
        let score :=
          if col.Name == str ("TimeGenerated") || col.Name == str ("ResourceId") ||
              col.Name == str ("OperationName") then score + 50
          else score
        some { Text := col.Name, Ty := str ("column"), Description := col.Ty,
               Score := score }
      else none)

/-- getFunctionSuggestions mirrors `AutocompleteEngine.getFunctionSuggestions`:
base 100 for every prefix match (no exact-match branch exists in this
category), +50 for candidates starting with count or sum. -/
def getFunctionSuggestions (word : GoStr) : List Suggestion :=
  let prefixLower := goToLower word
  let allFunctions := kqlFunctions ++ kqlTimeFunctions
  allFunctions.filterMap (fun fn =>
    let fnLower := goToLower fn
    if goStartsWith fnLower prefixLower then
      let score : Int := 100
      let score :=
        if goStartsWith fnLower (str ("count")) || goStartsWith fnLower (str ("sum")) then
          score + 50
        else score
      some { Text := fn, Ty := str ("function"), Description := str ("Function"),
             Score := score }
    else none)

/-- candidates is the pre-sort candidate list computed by the `switch` in
`AutocompleteEngine.GetSuggestions`; Unknown and Value both land in the
default branch, which concatenates operator and column candidates. -/
def candidates (e : Engine) (ctx : ParsedContext) : List Suggestion :=
  match ctx.Ty with
  | .tableName => getTableSuggestions e ctx.CurrentWord
  | .operator => getOperatorSuggestions ctx.CurrentWord
  | .columnName => getColumnSuggestions e ctx.CurrentTable ctx.CurrentWord
  | .function => getFunctionSuggestions ctx.CurrentWord
  | _ =>
    getOperatorSuggestions ctx.CurrentWord ++
      getColumnSuggestions e ctx.CurrentTable ctx.CurrentWord

/-- scoreSortedB checks that adjacent scores never increase, which is what
`sort.Slice` with `less i j := Score i > Score j` guarantees of its result. -/
def scoreSortedB : List Suggestion → Bool
  | [] => true
  | [_] => true
  | a :: b :: t => decide (b.Score ≤ a.Score) && scoreSortedB (b :: t)

/-- getSuggestionsRel is the relational model of
`AutocompleteEngine.GetSuggestions`: `sort.Slice` guarantees only that the
slice is reordered into some score-descending permutation (stability is
explicitly not guaranteed), after which the Go code truncates to `limit`
when `limit > 0 && len > limit`. -/
def getSuggestionsRel (e : Engine) (ctx : ParsedContext) (limit : Int)
    (out : List Suggestion) : Prop :=
  ∃ s : List Suggestion, s.Perm (candidates e ctx) ∧ scoreSortedB s = true ∧
    out = if 0 < limit ∧ (limit < (s.length : Int)) then s.take limit.toNat else s

/-! ## Suggestion popup (`suggestions.go`) -/

/-- Popup mirrors the `SuggestionPopup` fields (styling omitted); index
fields are Go ints. -/
structure Popup where
  suggestions : List Suggestion
  selectedIndex : Int
  visible : Bool
  maxVisible : Int
  scrollOffset : Int
  width : Int
  deriving DecidableEq, Repr

/-- newSuggestionPopup mirrors `NewSuggestionPopup`. -/
def newSuggestionPopup : Popup :=
  { suggestions := [], selectedIndex := 0, visible := false, maxVisible := 8,
    scrollOffset := 0, width := 50 }

/-- setSuggestions mirrors `SuggestionPopup.SetSuggestions`. -/
def setSuggestions (p : Popup) (l : List Suggestion) : Popup :=
  { p with suggestions := l, selectedIndex := 0, scrollOffset := 0,
           visible := decide (0 < l.length) }

/-- popupNext mirrors `SuggestionPopup.Next`. -/
def popupNext (p : Popup) : Popup :=
  if p.suggestions.length = 0 then p
  else
    let si := p.selectedIndex + 1
    let iw := if si ≥ (p.suggestions.length : Int) then ((0 : Int), (0 : Int))
      else (si, p.scrollOffset)
    let so := if iw.1 ≥ iw.2 + p.maxVisible then iw.1 - p.maxVisible + 1 else iw.2
    { p with selectedIndex := iw.1, scrollOffset := so }

/-- popupPrevious mirrors `SuggestionPopup.Previous`. -/
def popupPrevious (p : Popup) : Popup :=
  if p.suggestions.length = 0 then p
  else
    let si := p.selectedIndex - 1
    let iw :=
      if si < 0 then
        (((p.suggestions.length : Int) - 1),
          max 0 ((p.suggestions.length : Int) - p.maxVisible))
      else (si, p.scrollOffset)
    let so := if iw.1 < iw.2 then iw.1 else iw.2
    { p with selectedIndex := iw.1, scrollOffset := so }

/-- popupSelected mirrors `SuggestionPopup.Selected` (`nil` is `none`).  A
negative index would panic in Go; it cannot arise through the exported
operations, which keep the index in range. -/
def popupSelected (p : Popup) : Option Suggestion :=
  if p.suggestions.length = 0 ∨ (p.suggestions.length : Int) ≤ p.selectedIndex then none
  else p.suggestions.get? p.selectedIndex.toNat

/-- getSelectedText mirrors `SuggestionPopup.GetSelectedText`. -/
def getSelectedText (p : Popup) : GoStr :=
  match popupSelected p with
  | some s => s.Text
  | none => []

/-! ## Application model pieces (`app.go`) -/

/-- GoCmd models the `tea.Cmd` values the suggestion-message handlers can
return; `none` models a nil command. -/
inductive GoCmd where
  | getSuggestion (tag : Int)
  deriving DecidableEq, Repr

/-- GoModel carries the `Model` fields the suggestion-message handlers can
touch, plus `rest` for every other field of the Go struct (the handlers
never mention them, so they are modelled opaquely); `openaiClientPresent`
models `m.openaiClient != nil`. -/
structure GoModel (ρ : Type) where
  suggestion : GoStr
  suggestLoading : Bool
  suggestionDebounceTag : Int
  connected : Bool
  openaiClientPresent : Bool
  rest : ρ
  deriving DecidableEq, Repr

/-- SuggestionMsg mirrors `suggestionMsg`; `isErr` models `err != nil`. -/
structure SuggestionMsg where
  suggestion : GoStr
  isErr : Bool
  tag : Int
  deriving DecidableEq, Repr

/-- updateSuggestionMsg mirrors the `case suggestionMsg` branch of
`Model.Update`. -/
def updateSuggestionMsg {ρ : Type} (m : GoModel ρ) (msg : SuggestionMsg) :
    GoModel ρ × Option GoCmd :=
  if msg.tag = m.suggestionDebounceTag then
    ({ m with suggestLoading := false,
              suggestion := if msg.isErr then [] else msg.suggestion }, none)
  else (m, none)

/-- updateDebounceMsg mirrors the `case debounceMsg` branch of
`Model.Update`. -/
def updateDebounceMsg {ρ : Type} (m : GoModel ρ) (tag : Int) :
    GoModel ρ × Option GoCmd :=
  if tag = m.suggestionDebounceTag then
    if !m.connected || !m.openaiClientPresent then (m, none)
    else ({ m with suggestLoading := true }, some (.getSuggestion m.suggestionDebounceTag))
  else (m, none)

/-- filterTyped is the exact-match filter of `Model.updateLocalSuggestions`:
keep a suggestion when `s.Text != ctx.CurrentWord` (case-sensitive). -/
def filterTyped (suggs : List Suggestion) (w : GoStr) : List Suggestion :=
  suggs.filter (fun s => !(s.Text == w))

/-- acceptLocalSuggestion mirrors `Model.acceptLocalSuggestion`: re-parse the
context, then splice `beforeWord + text + afterCursor`. -/
def acceptLocalSuggestion (e : Engine) (query : GoStr) (cursorPos : Nat)
    (text : GoStr) : Except Unit GoStr :=
  match parseContext e query cursorPos with
  | .error er => .error er
  | .ok ctx =>
    let beforeWord := query.take ctx.WordStartPos
    let afterCursor := if cursorPos < query.length then query.drop cursorPos else []
    .ok (beforeWord ++ text ++ afterCursor)

/-- mapSet is a pointwise update of a modelled Go map. -/
def mapSet (m : GoStr → Option (List Column)) (k : GoStr) (v : List Column) :
    GoStr → Option (List Column) :=
  fun x => if x = k then some v else m x

/-- fetchStep is the body of the `fetchSchemasForTables` loop for one table:
use the cache when possible, otherwise fetch (when a client exists) and keep
the result only when it succeeded with a non-empty column list; `fetch t =
none` models a fetch error. -/
def fetchStep (cache : GoStr → Option (List Column)) (clientPresent : Bool)
    (fetch : GoStr → Option (List Column)) (acc : GoStr → Option (List Column))
    (table : GoStr) : GoStr → Option (List Column) :=
  match cache table with
  | some cached => mapSet acc table cached
  | none =>
    if clientPresent then
      match fetch table with
      | some columns => if 0 < columns.length then mapSet acc table columns else acc
      | none => acc
    else acc

/-- fetchSchemasForTables mirrors `Model.fetchSchemasForTables`, folding
`fetchStep` over the referenced tables starting from the empty map. -/
def fetchSchemasForTables (cache : GoStr → Option (List Column))
    (clientPresent : Bool) (fetch : GoStr → Option (List Column))
    (tables : List GoStr) : GoStr → Option (List Column) :=
  tables.foldl (fetchStep cache clientPresent fetch) (fun _ => none)

/-! ## Spec-side definitions for refinement comparisons -/

/-- insDesc inserts a suggestion into a score-descending list after every
entry of greater or equal score: the insertion step of a stable descending
insertion sort. -/
def insDesc (x : Suggestion) : List Suggestion → List Suggestion
  | [] => [x]
  | y :: ys => if y.Score < x.Score then x :: y :: ys else y :: insDesc x ys

/-- stableSortDesc is the unique stable score-descending sort: inserting the
input elements left to right keeps equal-score elements in input order.
This is the ordering the spec asserts for `GetSuggestions`. -/
def stableSortDesc (l : List Suggestion) : List Suggestion :=
  l.foldl (fun acc x => insDesc x acc) []

/-- specAnchors spells out the spec's anchor contexts for a referenced
table: at the very start of the query, or immediately preceded by a pipe
(with or without a following space), `union `, `join `, or `join (`. -/
def specAnchors : List GoStr :=
  [str ("|"), str ("| "), str ("union "), str ("join "), str ("join (")]

/-- specOccursAnchored follows the spec's words for a referenced table: the
lowercased table name occurs in the lowercased query either at the very
start or immediately preceded by one of the anchors. -/
def specOccursAnchored (query table : GoStr) : Bool :=
  let ql := goToLower query
  let tl := goToLower table
  (List.range (ql.length + 1)).any (fun i =>
    tl.isPrefixOf (ql.drop i) &&
      (i == 0 || specAnchors.any (fun a => goEndsWith (ql.take i) a)))

instance {ε α : Type} [DecidableEq ε] [DecidableEq α] : DecidableEq (Except ε α) :=
  fun x y =>
    match x, y with
    | .ok a, .ok b =>
      if h : a = b then .isTrue (by rw [h]) else .isFalse (by intro hc; cases hc; exact h rfl)
    | .error a, .error b =>
      if h : a = b then .isTrue (by rw [h]) else .isFalse (by intro hc; cases hc; exact h rfl)
    | .ok _, .error _ => .isFalse (by intro hc; cases hc)
    | .error _, .ok _ => .isFalse (by intro hc; cases hc)

/-! ## Claim C1 -/

/-- C1: handling a remote suggestion result whose tag differs from the
current `suggestionDebounceTag` leaves every field of the model unchanged
and returns no command, whether the result is a success or an error; a
debounce elapse carrying a stale tag likewise changes nothing and issues no
remote request. -/
theorem stale_tag_messages_are_noops {ρ : Type} (m : GoModel ρ) (msg : SuggestionMsg)
    (tag : Int) (hmsg : msg.tag ≠ m.suggestionDebounceTag)
    (htag : tag ≠ m.suggestionDebounceTag) :
    updateSuggestionMsg m msg = (m, none) ∧ updateDebounceMsg m tag = (m, none) := by
  constructor
  · simp [updateSuggestionMsg, hmsg]
  · simp [updateDebounceMsg, htag]

/-- C1 witness: a concrete stale suggestion result (tag 4 against current
tag 5) and a concrete stale debounce elapse are both no-ops. -/
theorem stale_tag_messages_are_noops_witness :
    updateSuggestionMsg ⟨str ("old"), true, 5, true, true, (0 : Nat)⟩
        ⟨str ("new"), false, 4⟩ =
      (⟨str ("old"), true, 5, true, true, (0 : Nat)⟩, none) ∧
    updateDebounceMsg ⟨str ("old"), true, 5, true, true, (0 : Nat)⟩ 4 =
      (⟨str ("old"), true, 5, true, true, (0 : Nat)⟩, none) :=
  stale_tag_messages_are_noops _ _ _ (by decide) (by decide)

/-! ## Claim C10 -/

/-- C10: with an empty suggestion list, Next and Previous leave the popup
state completely unchanged, Selected returns nil, and GetSelectedText
returns the empty string; no out-of-range access occurs. -/
theorem empty_popup_ops_are_safe (p : Popup) (h : p.suggestions = []) :
    popupNext p = p ∧ popupPrevious p = p ∧ popupSelected p = none ∧
      getSelectedText p = [] := by
  refine ⟨?_, ?_, ?_, ?_⟩ <;>
    simp [popupNext, popupPrevious, popupSelected, getSelectedText, h]

/-- C10 witness: the freshly created popup has an empty list, and all four
operations behave as stated on it. -/
theorem empty_popup_ops_are_safe_witness :
    popupNext newSuggestionPopup = newSuggestionPopup ∧
    popupPrevious newSuggestionPopup = newSuggestionPopup ∧
    popupSelected newSuggestionPopup = none ∧
    getSelectedText newSuggestionPopup = [] :=
  empty_popup_ops_are_safe newSuggestionPopup rfl

/-! ## Claim C9 -/

theorem fetchStep_preserves_none (cache fetch : GoStr → Option (List Column))
    (clientPresent : Bool) (t : GoStr) (hc : cache t = none)
    (hf : clientPresent = false ∨ fetch t = none ∨ fetch t = some [])
    (acc : GoStr → Option (List Column)) (hacc : acc t = none) (table : GoStr) :
    fetchStep cache clientPresent fetch acc table t = none := by
  unfold fetchStep
  by_cases htt : table = t
  · subst htt
    rw [hc]
    rcases hf with hf | hf | hf
    · simp [hf, hacc]
    · simp [hf, hacc]
    · simp [hf, hacc]
  · rcases hcc : cache table with _ | cols
    · rcases hff : fetch table with _ | cols
      · simp [hcc, hff, hacc]
      · cases clientPresent with
        | false => simp [hcc, hacc]
        | true =>
          by_cases hlen : 0 < cols.length
          · simp [hcc, hff, hlen, mapSet, hacc, Ne.symm htt]
          · simp [hcc, hff, hlen, hacc]
    · simp [hcc, mapSet, hacc, Ne.symm htt]

theorem fetchSchemas_foldl_none (cache fetch : GoStr → Option (List Column))
    (clientPresent : Bool) (t : GoStr) (hc : cache t = none)
    (hf : clientPresent = false ∨ fetch t = none ∨ fetch t = some []) :
    ∀ (tables : List GoStr) (acc : GoStr → Option (List Column)), acc t = none →
      tables.foldl (fetchStep cache clientPresent fetch) acc t = none := by
  intro tables
  induction tables with
  | nil => intro acc hacc; simpa using hacc
  | cons table rest ih =>
    intro acc hacc
    simpa using ih _ (fetchStep_preserves_none cache fetch clientPresent t hc hf acc hacc table)

/-- C9: a column lookup for a table absent from the schema cache returns the
empty list (no error path exists), and remote-suggestion schema assembly
leaves out any table whose schema is unavailable (cache miss together with
a missing client, a failed fetch, or an empty fetch result). -/
theorem missing_schema_is_omitted (e : Engine) (t w : GoStr)
    (cache fetch : GoStr → Option (List Column)) (clientPresent : Bool)
    (tables : List GoStr) (hmiss : e.schemas t = none) (hc : cache t = none)
    (hf : clientPresent = false ∨ fetch t = none ∨ fetch t = some []) :
    getColumnSuggestions e t w = [] ∧
      fetchSchemasForTables cache clientPresent fetch tables t = none := by
  constructor
  · unfold getColumnSuggestions
    rw [hmiss]
  · exact fetchSchemas_foldl_none cache fetch clientPresent t hc hf tables _ rfl

/-- C9 witness: an engine with an empty schema cache yields no column
suggestions for table X, and assembly over tables [X] with a failing
fetcher omits X. -/
theorem missing_schema_is_omitted_witness :
    getColumnSuggestions ⟨[], fun _ => none⟩ (str ("X")) (str ("")) = [] ∧
      fetchSchemasForTables (fun _ => none) true (fun _ => none) [str ("X")]
        (str ("X")) = none :=
  missing_schema_is_omitted ⟨[], fun _ => none⟩ (str ("X")) (str (""))
    (fun _ => none) (fun _ => none) true [str ("X")] rfl rfl (Or.inr (Or.inl rfl))

/-! ## Claim C3 -/

/-- C3 counterexample: on `"TableA | where "` (with the trailing space,
cursor at the end) `ParseContext` returns Type Operator with an empty
AfterKeyword — not ColumnName with AfterKeyword `"where"` — because the
trailing whitespace is trimmed before classification, so the post-pipe
segment is `"where"` and contains no space. -/
theorem where_trailing_space_counterexample :
    parseContext ⟨[str ("TableA")], fun _ => none⟩ (str ("TableA | where ")) 15 =
      .ok ⟨.operator, str ("TableA"), str ("where"), 9, [str ("TableA")], []⟩ ∧
    CtxType.operator ≠ CtxType.columnName := by
  exact ⟨by decide, by decide⟩

/-- C3 (amended): `"TableA | where "` with the cursor at the end yields Type
Operator with empty AfterKeyword; the ColumnName classification with
AfterKeyword `"where"` additionally needs a character after the keyword's
trailing space, as in `"TableA | where x"`. -/
theorem where_context_classification :
    parseContext ⟨[str ("TableA")], fun _ => none⟩ (str ("TableA | where ")) 15 =
      .ok ⟨.operator, str ("TableA"), str ("where"), 9, [str ("TableA")], []⟩ ∧
    parseContext ⟨[str ("TableA")], fun _ => none⟩ (str ("TableA | where x")) 16 =
      .ok ⟨.columnName, str ("TableA"), str ("x"), 15, [str ("TableA")],
        str ("where")⟩ := by
  exact ⟨by decide, by decide⟩

/-! ## Claim C2 -/

/-- C2: `ParseContext` is not total.  On the 22-byte query
`"T |ȺȺȺȺȺȺwhere x"` (Ⱥ is U+023A, whose lowercase form U+2C65 has a
one-byte-longer UTF-8 encoding) with the in-range cursor offset 22, the
keyword index found in the lowercased post-pipe segment exceeds the length
of the original segment, and the Go slice `afterPipe[idx+len(kw):]` panics
with a bounds error (modelled as `Except.error`).  The spec asserts parsing
is total and never errors, and the cursor-clamping guard shows totality is
the code's intent. -/
theorem parse_context_panics_on_growing_lowercase :
    (str ("T |ȺȺȺȺȺȺwhere x")).length = 22 ∧
    parseContext ⟨[], fun _ => none⟩ (str ("T |ȺȺȺȺȺȺwhere x")) 22 = .error () := by
  exact ⟨by decide, by decide⟩

/-! ## Claim C5 -/

/-- C5 counterexample: in the function category the candidate `count()`
matches the typed token `count()` exactly (case-insensitively) and yet
scores 150 — base 100 plus the count/sum boost — not the exact-match base
200 (nor 250 with the boost), because `getFunctionSuggestions` has no
exact-match branch. -/
theorem function_exact_match_counterexample :
    getFunctionSuggestions (str ("count()")) =
      [{ Text := str ("count()"), Ty := str ("function"),
         Description := str ("Function"), Score := 150 }] ∧
    goToLower (str ("count()")) = str ("count()") ∧
    (150 : Int) ≠ 200 ∧ (150 : Int) ≠ 250 := by
  exact ⟨by decide, by decide, by decide, by decide⟩

/-- C5 (amended): tables, operators and columns score base 100 for a
case-insensitive prefix match and base 200 for an exact case-insensitive
match, with a flat +50 boost for the curated operator subset (where,
project, take, summarize) and the curated column subset (TimeGenerated,
ResourceId, OperationName) and no boosted tables; the function category
scores a flat base 100 with no exact-match bonus, plus +50 for candidates
starting with count or sum. -/
theorem suggestion_scores (e : Engine) (word tbl : GoStr) (s : Suggestion) :
    (s ∈ getTableSuggestions e word →
      s.Score = (if goToLower s.Text = goToLower word then 200 else 100)) ∧
    (s ∈ getOperatorSuggestions word →
      s.Score = (if s.Text = goToLower word then 200 else 100) +
        (if s.Text = str ("where") ∨ s.Text = str ("project") ∨
            s.Text = str ("take") ∨ s.Text = str ("summarize") then 50 else 0)) ∧
    (s ∈ getColumnSuggestions e tbl word →
      s.Score = (if goToLower s.Text = goToLower word then 200 else 100) +
        (if s.Text = str ("TimeGenerated") ∨ s.Text = str ("ResourceId") ∨
            s.Text = str ("OperationName") then 50 else 0)) ∧
    (s ∈ getFunctionSuggestions word →
      s.Score = 100 +
        (if goStartsWith (goToLower s.Text) (str ("count")) ∨
            goStartsWith (goToLower s.Text) (str ("sum")) then 50 else 0)) := by
  refine ⟨?_, ?_, ?_, ?_⟩
  · intro h
    rw [getTableSuggestions] at h
    obtain ⟨a, ha, heq⟩ := List.mem_filterMap.mp h
    dsimp only at heq
    split at heq
    · cases heq
      rfl
    · cases heq
  · intro h
    rw [getOperatorSuggestions] at h
    obtain ⟨a, ha, heq⟩ := List.mem_filterMap.mp h
    dsimp only at heq
    split at heq
    · cases heq
      dsimp only
      by_cases hb : (a == str ("where") || a == str ("project") || a == str ("take") ||
          a == str ("summarize")) = true
      · have hb2 : a = str ("where") ∨ a = str ("project") ∨ a = str ("take") ∨
            a = str ("summarize") := by
          simpa [Bool.or_eq_true, beq_iff_eq, or_assoc] using hb
        rw [if_pos hb, if_pos hb2]
      · have hb2 : ¬ (a = str ("where") ∨ a = str ("project") ∨ a = str ("take") ∨
            a = str ("summarize")) := by
          simpa [Bool.or_eq_true, beq_iff_eq, or_assoc] using hb
        rw [if_neg hb, if_neg hb2, Int.add_zero]
    · cases heq
  · intro h
    rw [getColumnSuggestions] at h
    rcases hsch : e.schemas tbl with _ | columns
    · rw [hsch] at h
      cases h
    · rw [hsch] at h
      obtain ⟨a, ha, heq⟩ := List.mem_filterMap.mp h
      dsimp only at heq
      split at heq
      · cases heq
        dsimp only
        by_cases hb : (a.Name == str ("TimeGenerated") || a.Name == str ("ResourceId") ||
            a.Name == str ("OperationName")) = true
        · have hb2 : a.Name = str ("TimeGenerated") ∨ a.Name = str ("ResourceId") ∨
              a.Name = str ("OperationName") := by
            simpa [Bool.or_eq_true, beq_iff_eq, or_assoc] using hb
          rw [if_pos hb, if_pos hb2]
        · have hb2 : ¬ (a.Name = str ("TimeGenerated") ∨ a.Name = str ("ResourceId") ∨
              a.Name = str ("OperationName")) := by
            simpa [Bool.or_eq_true, beq_iff_eq, or_assoc] using hb
          rw [if_neg hb, if_neg hb2, Int.add_zero]
      · cases heq
  · intro h
    rw [getFunctionSuggestions] at h
    obtain ⟨a, ha, heq⟩ := List.mem_filterMap.mp h
    dsimp only at heq
    split at heq
    · cases heq
      dsimp only
      by_cases hb : (goStartsWith (goToLower a) (str ("count")) ||
          goStartsWith (goToLower a) (str ("sum"))) = true
      · have hb2 : goStartsWith (goToLower a) (str ("count")) = true ∨
            goStartsWith (goToLower a) (str ("sum")) = true := by
          simpa [Bool.or_eq_true] using hb
        rw [if_pos hb, if_pos hb2]
      · have hb2 : ¬ (goStartsWith (goToLower a) (str ("count")) = true ∨
            goStartsWith (goToLower a) (str ("sum")) = true) := by
          simpa [Bool.or_eq_true] using hb
        rw [if_neg hb, if_neg hb2, Int.add_zero]
    · cases heq

/-- C5 witness: the operator `where` against the typed prefix `wh` scores
100 + 50 = 150 by the amended rule. -/
theorem suggestion_scores_witness :
    ({ Text := str ("where"), Ty := str ("operator"), Description := str ("Operator"),
       Score := 150 } : Suggestion) ∈ getOperatorSuggestions (str ("wh")) ∧
    (150 : Int) =
      (if str ("where") = goToLower (str ("wh")) then 200 else 100) +
        (if str ("where") = str ("where") ∨ str ("where") = str ("project") ∨
            str ("where") = str ("take") ∨ str ("where") = str ("summarize")
          then 50 else 0) := by
  refine ⟨by decide, ?_⟩
  exact (suggestion_scores ⟨[], fun _ => none⟩ (str ("wh")) []
    { Text := str ("where"), Ty := str ("operator"), Description := str ("Operator"),
      Score := 150 }).2.1 (by decide)

/-! ## Claim C6 -/

/-- engE is an engine with no tables and an empty schema cache, used by the
concrete witnesses. -/
def engE : Engine := ⟨[], fun _ => none⟩

/-- whereSugg is the single candidate computed for the fully typed word
`where` in operator context. -/
def whereSugg : Suggestion :=
  { Text := str ("where"), Ty := str ("operator"), Description := str ("Operator"),
    Score := 250 }

/-- c6ctx is the parsed context of `"Table | where"` with the cursor at the
end. -/
def c6ctx : ParsedContext := ⟨.operator, [], str ("where"), 8, [], []⟩

/-- C6: after the local suggestion list is recomputed for any query state,
no suggestion whose text equals the current partial token (case-sensitive)
survives the exact-match filter into the popup list. -/
theorem typed_word_is_filtered (e : Engine) (query : GoStr) (cursorPos : Nat)
    (ctx : ParsedContext) (suggs : List Suggestion) (p : Popup)
    (_hp : parseContext e query cursorPos = .ok ctx)
    (_hr : getSuggestionsRel e ctx 10 suggs) :
    ((setSuggestions p (filterTyped suggs ctx.CurrentWord)).suggestions.all
      (fun s => !(s.Text == ctx.CurrentWord))) = true := by
  simp only [setSuggestions]
  rw [List.all_eq_true]
  intro s hs
  exact (List.mem_filter.mp hs).2

/-- C6 witness: with the full word `where` typed (query `"Table | where"`,
cursor 13), the candidate `where` (score 250) is excluded from the popup
list. -/
theorem typed_word_is_filtered_witness :
    ((setSuggestions newSuggestionPopup
        (filterTyped [whereSugg] (str ("where")))).suggestions.all
      (fun s => !(s.Text == str ("where")))) = true :=
  typed_word_is_filtered engE (str ("Table | where")) 13 c6ctx [whereSugg]
    newSuggestionPopup (by decide)
    ⟨[whereSugg], by decide, by decide, by decide⟩

/-! ## Claim C8 -/

theorem findCurrentWord_start_le (t : GoStr) : (findCurrentWord t).2 ≤ t.length := by
  rw [findCurrentWord]
  split
  · simp
  · exact Nat.sub_le _ _

theorem goTrimRightWs_length_le (s : GoStr) : (goTrimRightWs s).length ≤ s.length := by
  rw [goTrimRightWs]
  calc ((s.reverse.dropWhile fun b => b = 32 || b = 9 || b = 10).reverse).length
      = (s.reverse.dropWhile fun b => b = 32 || b = 9 || b = 10).length := by
        rw [List.length_reverse]
    _ ≤ s.reverse.length := (List.dropWhile_suffix _).sublist.length_le
    _ = s.length := List.length_reverse _

/-- C8: accepting a popup suggestion splices the chosen text over exactly
the span from the current word's start offset up to the cursor, leaving all
text after the cursor unchanged. -/
theorem accept_replaces_word_span (e : Engine) (query text : GoStr) (cursorPos : Nat)
    (ctx : ParsedContext) (hcur : cursorPos ≤ query.length)
    (hp : parseContext e query cursorPos = .ok ctx) :
    ctx.WordStartPos ≤ cursorPos ∧
      acceptLocalSuggestion e query cursorPos text =
        .ok (query.take ctx.WordStartPos ++ text ++ query.drop cursorPos) := by
  have hws : ctx.WordStartPos ≤ cursorPos := by
    rw [parseContext] at hp
    rcases hdet : determineContextType
        (goTrimRightWs (query.take (if cursorPos > query.length then query.length
          else cursorPos))) with er | tk
    · rw [hdet] at hp
      cases hp
    · rw [hdet] at hp
      cases hp
      calc (findCurrentWord (goTrimRightWs (query.take (if cursorPos > query.length
              then query.length else cursorPos)))).2
          ≤ (goTrimRightWs (query.take (if cursorPos > query.length then query.length
              else cursorPos))).length := findCurrentWord_start_le _
        _ ≤ (query.take (if cursorPos > query.length then query.length
              else cursorPos)).length := goTrimRightWs_length_le _
        _ ≤ cursorPos := by
            have hnot : ¬ cursorPos > query.length := by omega
            rw [List.length_take, if_neg hnot]
            exact Nat.min_le_left _ _
  refine ⟨hws, ?_⟩
  rw [acceptLocalSuggestion, hp]
  by_cases hlt : cursorPos < query.length
  · simp [hlt]
  · have hdrop : query.drop cursorPos = [] := List.drop_eq_nil_of_le (by omega)
    simp [hlt, hdrop]

/-- C8 witness: accepting `where` on `"Table | wh"` with the cursor at the
end yields exactly `"Table | where"`. -/
theorem accept_replaces_word_span_witness :
    acceptLocalSuggestion engE (str ("Table | wh")) 10 (str ("where")) =
      .ok (str ("Table | where")) := by
  have h := accept_replaces_word_span engE (str ("Table | wh")) (str ("where")) 10
    ⟨.operator, [], str ("wh"), 8, [], []⟩ (by decide) (by decide)
  rw [h.2]
  decide

/-! ## Claim C7 -/

theorem refs_foldl_eq (ql : GoStr) :
    ∀ (tbls : List GoStr) (acc : List GoStr), tbls.Nodup → (∀ t ∈ tbls, t ∉ acc) →
      tbls.foldl (refStep ql) acc =
        acc ++ tbls.filter (fun t => tableMatches ql (goToLower t)) := by
  intro tbls
  induction tbls with
  | nil => intro acc _ _; simp
  | cons t rest ih =>
    intro acc hnd hdisj
    obtain ⟨htr, hndr⟩ := List.nodup_cons.mp hnd
    have hnotin : t ∉ acc := hdisj t (by simp)
    rw [List.foldl_cons, List.filter_cons]
    by_cases hm : tableMatches ql (goToLower t) = true
    · have hstep : refStep ql acc t = acc ++ [t] := by
        rw [refStep, if_pos]
        rw [hm]
        simp [hnotin]
      rw [hstep, ih (acc ++ [t]) hndr ?hdis]
      case hdis =>
        intro x hx
        simp only [List.mem_append, List.mem_singleton]
        rintro (hxa | rfl)
        · exact hdisj x (by simp [hx]) hxa
        · exact htr hx
      simp [hm]
    · have hstep : refStep ql acc t = acc := by
        rw [refStep, if_neg]
        simp [hm]
      rw [hstep, ih acc hndr (fun x hx => hdisj x (by simp [hx]))]
      simp [hm]

/-- C7 counterexample: with known table `B` and query `"A | where B == 1"`,
the code reports `B` as referenced (its pattern `"b "`, the name followed by
a space, matches anywhere in the query), although `B` occurs neither at the
very start of the query nor immediately preceded by a pipe, `union `,
`join `, or `join (` — so the claim's characterisation of the referenced
set is false. -/
theorem referenced_tables_counterexample :
    findReferencedTables [str ("B")] (str ("A | where B == 1")) = [str ("B")] ∧
    specOccursAnchored (str ("A | where B == 1")) (str ("B")) = false := by
  exact ⟨by decide, by decide⟩

/-- C7 (amended): `Context.ReferencedTables` contains exactly those known
tables (in the engine's table-list order, without duplicates) whose
lowercased name, in the lowercased query, is followed by a space, pipe or
newline, or preceded by `"| "`, `"|"`, `"union "`, `"join "` or `"join ("`,
or is a prefix of the query; `Context.CurrentTable` is the first such table
in table-list order (not document order). -/
theorem referenced_tables_characterization (e : Engine) (query : GoStr)
    (cursorPos : Nat) (ctx : ParsedContext) (hnd : e.tables.Nodup)
    (hp : parseContext e query cursorPos = .ok ctx) :
    ctx.ReferencedTables =
        e.tables.filter (fun t => tableMatches (goToLower query) (goToLower t)) ∧
      ctx.CurrentTable =
        ((e.tables.filter
          (fun t => tableMatches (goToLower query) (goToLower t))).head?).getD [] := by
  have hrefs : findReferencedTables e.tables query =
      e.tables.filter (fun t => tableMatches (goToLower query) (goToLower t)) := by
    rw [findReferencedTables]
    simpa using refs_foldl_eq (goToLower query) e.tables [] hnd (by simp)
  rw [parseContext] at hp
  rcases hdet : determineContextType
      (goTrimRightWs (query.take (if cursorPos > query.length then query.length
        else cursorPos))) with er | tk
  · rw [hdet] at hp
    cases hp
  · rw [hdet] at hp
    cases hp
    exact ⟨hrefs, by rw [hrefs]⟩

/-- C7 witness: for the single known table `TableA` and query
`"TableA | where x"`, the context's referenced tables and current table
match the pattern characterisation. -/
theorem referenced_tables_characterization_witness :
    (⟨.columnName, str ("TableA"), str ("x"), 15, [str ("TableA")],
        str ("where")⟩ : ParsedContext).ReferencedTables =
      [str ("TableA")].filter
        (fun t => tableMatches (goToLower (str ("TableA | where x"))) (goToLower t)) ∧
    (⟨.columnName, str ("TableA"), str ("x"), 15, [str ("TableA")],
        str ("where")⟩ : ParsedContext).CurrentTable =
      (([str ("TableA")].filter
        (fun t => tableMatches (goToLower (str ("TableA | where x")))
          (goToLower t))).head?).getD [] :=
  referenced_tables_characterization ⟨[str ("TableA")], fun _ => none⟩
    (str ("TableA | where x")) 16
    ⟨.columnName, str ("TableA"), str ("x"), 15, [str ("TableA")], str ("where")⟩
    (by decide) (by decide)

/-! ## Claim C4 -/

/-- opSugg abbreviates an operator suggestion with the given text and
score. -/
def opSugg (t : String) (sc : Int) : Suggestion :=
  { Text := str (t), Ty := str ("operator"), Description := str ("Operator"),
    Score := sc }

/-- ctxU is an Unknown context with nothing typed (for example the context
passed to `GetSuggestions` for a query that matched no classification). -/
def ctxU : ParsedContext := ⟨.unknown, [], [], 0, [], []⟩

/-- badSorted is a score-descending permutation of the Unknown-context
candidate list in which the equal-score pair where/project appears in the
opposite of source iteration order. -/
def badSorted : List Suggestion :=
  [opSugg ("project") 150, opSugg ("where") 150, opSugg ("summarize") 150,
   opSugg ("take") 150, opSugg ("extend") 100, opSugg ("join") 100,
   opSugg ("union") 100, opSugg ("limit") 100, opSugg ("top") 100,
   opSugg ("sort") 100, opSugg ("order") 100, opSugg ("distinct") 100,
   opSugg ("count") 100, opSugg ("render") 100, opSugg ("parse") 100,
   opSugg ("evaluate") 100, opSugg ("invoke") 100, opSugg ("mv-expand") 100,
   opSugg ("make-series") 100, opSugg ("serialize") 100, opSugg ("range") 100]

/-- C4 counterexample: `badSorted` is an admissible `GetSuggestions` result
for the Unknown context with nothing typed (a score-descending permutation
of the 21 candidates, untouched by the limit check at limit 0), yet it is
not the stable descending ordering: the equal-score candidates where and
project appear in the opposite of their source iteration order.
`sort.Slice` guarantees no stability, so the claimed tie order does not
hold for the code. -/
theorem get_suggestions_not_stable_counterexample :
    getSuggestionsRel engE ctxU 0 badSorted ∧
    badSorted ≠ stableSortDesc (candidates engE ctxU) ∧
    (candidates engE ctxU).take 2 = [opSugg ("where") 150, opSugg ("project") 150] ∧
    badSorted.take 2 = [opSugg ("project") 150, opSugg ("where") 150] := by
  refine ⟨⟨badSorted, List.isPerm_iff.mp (by decide), by decide, by decide⟩,
    by decide, by decide, by decide⟩

theorem scoreSortedB_cons (a b : Suggestion) (t : List Suggestion) :
    scoreSortedB (a :: b :: t) = (decide (b.Score ≤ a.Score) && scoreSortedB (b :: t)) :=
  rfl

theorem scoreSortedB_take : ∀ (l : List Suggestion) (n : Nat),
    scoreSortedB l = true → scoreSortedB (l.take n) = true := by
  intro l
  induction l with
  | nil => intro n _; simp [scoreSortedB]
  | cons a t ih =>
    intro n h
    cases n with
    | zero => simp [scoreSortedB]
    | succ m =>
      cases t with
      | nil => simp [scoreSortedB]
      | cons b t2 =>
        cases m with
        | zero => simp [scoreSortedB]
        | succ k =>
          rw [scoreSortedB_cons, Bool.and_eq_true] at h
          obtain ⟨h1, h2⟩ := h
          have h3 := ih (k + 1) h2
          rw [List.take_succ_cons] at h3
          rw [List.take_succ_cons, List.take_succ_cons, scoreSortedB_cons,
            Bool.and_eq_true]
          exact ⟨h1, h3⟩

/-- C4 (amended): every admissible `GetSuggestions` result is sorted by
non-increasing score and draws all its elements from the computed
candidates; the relative order of equal-score candidates is unspecified,
because `sort.Slice` gives no stability guarantee. -/
theorem get_suggestions_sorted (e : Engine) (ctx : ParsedContext) (limit : Int)
    (out : List Suggestion) (hr : getSuggestionsRel e ctx limit out) :
    scoreSortedB out = true ∧
      out.all (fun x => decide (x ∈ candidates e ctx)) = true := by
  obtain ⟨s, hperm, hsort, hout⟩ := hr
  have hsub : ∀ x ∈ out, x ∈ candidates e ctx := by
    intro x hx
    have hxs : x ∈ s := by
      rw [hout] at hx
      split at hx
      · exact List.take_subset _ _ hx
      · exact hx
    exact hperm.mem_iff.mp hxs
  constructor
  · rw [hout]
    split
    · exact scoreSortedB_take s _ hsort
    · exact hsort
  · rw [List.all_eq_true]
    intro x hx
    simpa using hsub x hx

/-- C4 witness: the amended statement applied to the admissible result
`badSorted` for the Unknown context. -/
theorem get_suggestions_sorted_witness :
    scoreSortedB badSorted = true ∧
      badSorted.all (fun x => decide (x ∈ candidates engE ctxU)) = true :=
  get_suggestions_sorted engE ctxU 0 badSorted
    ⟨badSorted, List.isPerm_iff.mp (by decide), by decide, by decide⟩

end Azlogs
